import Mathlib

/-!
Verification of the fuclaude-pool-manager design: the pool of email→SK
credentials, its repository operations (add / update / delete / list),
the login selector, the store adapter, the admin authenticator, and the
interactive deployment script.

The worker's pool-management code itself is not shipped in this snapshot
(only its README documentation and the deployment scripts are), so the
pool manager is modelled from the specification, faithful to its words;
the deployment-script definitions are embedded from `deploy-worker.mjs`.
-/

namespace PoolMgr

/-- Modelled from the spec: the error kinds of §7 (the worker source
`src/index.ts` is missing from the snapshot). `Conflict` is reserved and
never raised by the baseline design. -/
inductive PoolError where
  | InvalidInput
  | DuplicateEmail
  | NotFound
  | PoolEmpty
  | Unauthorized
  | Conflict
  | StoreUnavailable
  | IssuerUnavailable
  | IssuerRejected
deriving DecidableEq, Repr

instance {α : Type} [DecidableEq α] : DecidableEq (Except PoolError α) := by
  intro a b
  cases a with
  | error e =>
    cases b with
    | error f =>
      cases (inferInstance : Decidable (e = f)) with
      | isTrue h => exact .isTrue (by rw [h])
      | isFalse h => exact .isFalse (fun hc => h (by injection hc))
    | ok y => exact .isFalse (fun hc => by injection hc)
  | ok x =>
    cases b with
    | error f => exact .isFalse (fun hc => by injection hc)
    | ok y =>
      cases (inferInstance : Decidable (x = y)) with
      | isTrue h => exact .isTrue (by rw [h])
      | isFalse h => exact .isFalse (fun hc => h (by injection hc))

/-- Modelled from the spec: a Pool is a mapping from email to SK with
unique keys (§3); realised as an association list whose key list is
duplicate-free (`keysNodup` below). -/
abbrev Pool := List (String × String)

/-- Modelled from the spec: lookup of the SK bound to an email in the
mapping. -/
def lookupSK : Pool → String → Option String
  | [], _ => none
  | (e, sk) :: rest, x => if e = x then some sk else lookupSK rest x

/-- Removal of every binding of a given email from the mapping. -/
def eraseKey (p : Pool) (email : String) : Pool :=
  p.filter (fun kv => kv.1 ≠ email)

/-- The structural invariant of §3: no duplicate emails. -/
def keysNodup (p : Pool) : Prop := (p.map Prod.fst).Nodup

instance (p : Pool) : Decidable (keysNodup p) := by
  unfold keysNodup; infer_instance

/-- Modelled from the spec (§4.2): `add(email, sk)` fails with
`DuplicateEmail` if email already present; fails with `InvalidInput` if
email or sk is empty (the spec's "empty/malformed", with no further
format rule given); otherwise inserts. Failure conditions are checked in
the order the spec lists them. -/
def addOp (p : Pool) (email sk : String) : Except PoolError Pool :=
  if (lookupSK p email).isSome then .error .DuplicateEmail
  else if email.isEmpty || sk.isEmpty then .error .InvalidInput
  else .ok ((email, sk) :: p)

/-- Modelled from the spec (§4.2, §9): `update(email, newEmail?, newSk?)`
fails with `NotFound` if email absent; fails with `InvalidInput` if
neither newEmail nor newSk supplied, or if newEmail is already used by a
different existing entry (renaming to the entry's own email is a no-op
success, per the §9 note); otherwise applies rename and/or SK
replacement in one step. -/
def updateOp (p : Pool) (email : String) (newEmail newSk : Option String) :
    Except PoolError Pool :=
  match lookupSK p email with
  | none => .error .NotFound
  | some oldSk =>
    if newEmail.isNone && newSk.isNone then .error .InvalidInput
    else
      let ne := newEmail.getD email
      if ne ≠ email ∧ (lookupSK p ne).isSome then .error .InvalidInput
      else .ok ((ne, newSk.getD oldSk) :: eraseKey p email)

/-- Modelled from the spec (§4.2): `delete(email)` fails with `NotFound`
if absent; removes otherwise. -/
def deleteOp (p : Pool) (email : String) : Except PoolError Pool :=
  if (lookupSK p email).isSome then .ok (eraseKey p email)
  else .error .NotFound

/-- The three repository mutations of §4.2, as replayable operations. -/
inductive PoolOp where
  | add (email sk : String)
  | update (email : String) (newEmail newSk : Option String)
  | delete (email : String)
deriving DecidableEq, Repr

/-- Dispatch of one mutation against a loaded Pool. -/
def applyOp (p : Pool) : PoolOp → Except PoolError Pool
  | .add email sk => addOp p email sk
  | .update email ne nsk => updateOp p email ne nsk
  | .delete email => deleteOp p email

/-- One load-mutate-save cycle: a failed mutation leaves the persisted
Pool unchanged (§7), a successful one persists the mutated copy. -/
def stepOp (p : Pool) (op : PoolOp) : Pool :=
  match applyOp p op with
  | .ok q => q
  | .error _ => p

/-- Replay of an operation sequence starting from the empty Pool. -/
def replay (ops : List PoolOp) : Pool := ops.foldl stepOp []

/-! ## Reference model (spec §8, first testable property)

An ordinary mapping `String → Option String`, with the same
per-operation success/failure rules, spelled from the spec's words
rather than from the association-list realisation. -/

/-- The reference model's state: an ordinary mapping. -/
abbrev RefMap := String → Option String

/-- Reference `add`: the spec's rules read over an ordinary mapping. -/
def refAdd (m : RefMap) (email sk : String) : Except PoolError RefMap :=
  if (m email).isSome then .error .DuplicateEmail
  else if email.isEmpty || sk.isEmpty then .error .InvalidInput
  else .ok (fun x => if x = email then some sk else m x)

/-- Reference `update`: the spec's rules read over an ordinary mapping. -/
def refUpdate (m : RefMap) (email : String) (newEmail newSk : Option String) :
    Except PoolError RefMap :=
  match m email with
  | none => .error .NotFound
  | some oldSk =>
    if newEmail.isNone && newSk.isNone then .error .InvalidInput
    else
      let ne := newEmail.getD email
      if ne ≠ email ∧ (m ne).isSome then .error .InvalidInput
      else .ok (fun x =>
        if x = ne then some (newSk.getD oldSk)
        else if x = email then none else m x)

/-- Reference `delete`: the spec's rules read over an ordinary mapping. -/
def refDelete (m : RefMap) (email : String) : Except PoolError RefMap :=
  if (m email).isSome then .ok (fun x => if x = email then none else m x)
  else .error .NotFound

/-- Dispatch of one mutation in the reference model. -/
def refApplyOp (m : RefMap) : PoolOp → Except PoolError RefMap
  | .add email sk => refAdd m email sk
  | .update email ne nsk => refUpdate m email ne nsk
  | .delete email => refDelete m email

/-- Reference replay step: a failed operation leaves the mapping as it
was. -/
def refStepOp (m : RefMap) (op : PoolOp) : RefMap :=
  match refApplyOp m op with
  | .ok m2 => m2
  | .error _ => m

/-- Reference replay from the empty mapping. -/
def refReplay (ops : List PoolOp) : RefMap := ops.foldl refStepOp (fun _ => none)

/-- The refinement relation: the association list realises exactly the
reference mapping. -/
def Sim (p : Pool) (m : RefMap) : Prop := ∀ x, lookupSK p x = m x

/-- The error of a result, `none` on success: two operations have the
same success/failure outcome when their `errOf` agree. -/
def errOf {α : Type} : Except PoolError α → Option PoolError
  | .error e => some e
  | .ok _ => none

/-! ## Listing (spec §4.2, §6) -/

/-- Lexicographic order on strings as a Bool relation, for sorting. -/
def strLe (a b : String) : Bool := decide (a ≤ b)

/-- Modelled from the spec: `listEmails()` — all emails with a non-empty
SK, sorted ascending (§4.2, §6). -/
def listEmails (p : Pool) : List String :=
  ((p.filter (fun kv => !kv.2.isEmpty)).map Prod.fst).mergeSort strLe

/-- Modelled from the spec: the redacted SK preview of `list()` — first
and last few characters, never the raw secret when longer than the
preview window. -/
def skPreview (sk : String) : String :=
  if sk.length ≤ 8 then sk else sk.take 4 ++ "..." ++ sk.takeRight 4

/-- Modelled from the spec: `list()` — all entries sorted by email
ascending, SKs redacted (§4.2). -/
def adminList (p : Pool) : List (String × String) :=
  (p.map (fun kv => (kv.1, skPreview kv.2))).mergeSort (fun a b => strLe a.1 b.1)

/-! ## Selector (spec §4.3, §9) -/

/-- Modelled from the spec: random-mode selection — fails with
`PoolEmpty` on an empty snapshot, otherwise a uniform draw over the
snapshot's entry count, with the random source injected as a natural
number reduced modulo the entry count (§4.3, §9). -/
def selectRandom (p : Pool) (r : Nat) : Except PoolError (String × String) :=
  if h : p.length = 0 then .error .PoolEmpty
  else .ok (p.get ⟨r % p.length, Nat.mod_lt r (Nat.pos_of_ne_zero h)⟩)

/-- Modelled from the spec: specific-mode selection — fails with
`NotFound` if the email is absent from the snapshot, otherwise returns
that entry's SK (§4.3). -/
def selectSpecific (p : Pool) (email : String) : Except PoolError String :=
  match lookupSK p email with
  | none => .error .NotFound
  | some sk => .ok sk

/-! ## Store adapter (spec §4.1) -/

/-- The persisted state: one well-known key that is either absent or
holds the JSON blob of the Pool (§4.1, §6). -/
abbrev StoreVal := Option Pool

/-- Modelled from the spec: `load()` — fails with `StoreUnavailable` on
transport error; returns an empty Pool, not an error, when the
underlying key is absent (§4.1). `transportOk` is the injected
transport outcome. -/
def loadStore (kv : StoreVal) (transportOk : Bool) : Except PoolError Pool :=
  if transportOk then .ok (kv.getD []) else .error .StoreUnavailable

/-- Modelled from the spec: `save(pool)` — writes the blob under the
same key, fails with `StoreUnavailable` on transport error (§4.1). -/
def saveStore (_kv : StoreVal) (p : Pool) (transportOk : Bool) :
    Except PoolError StoreVal :=
  if transportOk then .ok (some p) else .error .StoreUnavailable

/-! ## Admin authenticator (spec §4.4) -/

/-- One pass of the constant-time comparison: every character position
of the zipped inputs is visited and folded into the accumulator; the
pair also counts the comparison steps performed, so the cost of the
loop is part of the definition, not derived after the fact. -/
def ctScan : List Char → List Char → Bool → Bool × Nat
  | [], _, acc => (acc, 0)
  | _ :: _, [], acc => (acc, 0)
  | a :: as, b :: bs, acc =>
    let rest := ctScan as bs (acc && decide (a = b))
    (rest.1, rest.2 + 1)

/-- Modelled from the spec: the constant-time equality check of §4.4 —
the length comparison seeds the accumulator (lengths are public), then
every common character position is compared with no early exit. -/
def ctEq (a b : String) : Bool :=
  (ctScan a.data b.data (a.length == b.length)).1

/-- The number of character comparisons `ctEq` performs. -/
def ctEqSteps (a b : String) : Nat :=
  (ctScan a.data b.data (a.length == b.length)).2

/-- Modelled from the spec: `authenticate(suppliedPassword)` compares
against the single configured secret with the constant-time check. -/
def authenticate (secret supplied : String) : Bool := ctEq supplied secret

/-! ## Full operations (spec §4.2–§4.5, §6, §7)

Each operation is one logical transaction over the persisted store:
authenticate (admin ops), `load()`, mutate in memory, `save()`. The pair
returned is the persisted store after the call and the typed result. -/

/-- An admin request (§6): the three mutations plus the redacted
listing. -/
inductive AdminReq where
  | add (email sk : String)
  | update (email : String) (newEmail newSk : Option String)
  | delete (email : String)
  | list
deriving DecidableEq, Repr

/-- The successful outcome of an operation. -/
inductive OpOutput where
  | done
  | listing (entries : List (String × String))
  | emails (es : List String)
  | url (u : String)
deriving DecidableEq, Repr

/-- Commit step shared by the admin mutations: a failed mutation is
surfaced without saving, a successful one is persisted (or fails as
`StoreUnavailable` leaving the store untouched). -/
def commitSave (kv : StoreVal) (saveOk : Bool) :
    Except PoolError Pool → StoreVal × Except PoolError OpOutput
  | .error e => (kv, .error e)
  | .ok p2 =>
    match saveStore kv p2 saveOk with
    | .error e => (kv, .error e)
    | .ok kv2 => (kv2, .ok .done)

/-- Modelled from the spec: an admin operation — `Unauthorized` before
the repository is invoked when the password check fails (§4.4), then the
load-mutate-save protocol of §4.2. -/
def runAdmin (secret supplied : String) (kv : StoreVal) (loadOk saveOk : Bool)
    (req : AdminReq) : StoreVal × Except PoolError OpOutput :=
  if !authenticate secret supplied then (kv, .error .Unauthorized)
  else
    match loadStore kv loadOk with
    | .error e => (kv, .error e)
    | .ok p =>
      match req with
      | .list => (kv, .ok (.listing (adminList p)))
      | .add email sk => commitSave kv saveOk (addOp p email sk)
      | .update email ne nsk => commitSave kv saveOk (updateOp p email ne nsk)
      | .delete email => commitSave kv saveOk (deleteOp p email)

/-- The login mode of §6. -/
inductive LoginMode where
  | specific
  | random
deriving DecidableEq, Repr

/-- Modelled from the spec: `Login` — loads a fresh snapshot, resolves
the entry via the selector, and calls the credential issuer (§4.3,
§4.5, §6); the issuer is an injected collaborator that may fail with
its own error kinds; `r` is the injected random source. Login never
saves. -/
def runLogin (kv : StoreVal) (loadOk : Bool) (mode : LoginMode)
    (email uniqueName : Option String) (r : Nat)
    (issuer : String → Option String → Except PoolError String) :
    StoreVal × Except PoolError OpOutput :=
  match loadStore kv loadOk with
  | .error e => (kv, .error e)
  | .ok p =>
    match mode with
    | .specific =>
      match email with
      | none => (kv, .error .InvalidInput)
      | some em =>
        match selectSpecific p em with
        | .error e => (kv, .error e)
        | .ok sk => (kv, (issuer sk uniqueName).map .url)
    | .random =>
      match selectRandom p r with
      | .error e => (kv, .error e)
      | .ok entry => (kv, (issuer entry.2 uniqueName).map .url)

end PoolMgr

namespace DeployScript

/-!
Embedding of the tail of `deploy-worker.mjs` (steps 6–7 and the final
message, lines 220–293); `deploy-worker-zh.mjs` lines 204–277 is the
same control flow with translated log strings. A run is the sequence of
shell commands issued through `executeCommand` and console messages;
`executeCommand` re-throws on a failing command, which the top-level
catch turns into `process.exit(1)`, so a run aborts at the first failing
command.
-/

/-- The wrangler invocations steps 6–7 can hand to `executeCommand`:
`wrangler secret put <name>` (line 228/241), `wrangler kv:key put
"EMAIL_TO_SK_MAP" --path "<path>" --binding CLAUDE_KV [--preview]`
(lines 271/273), and the inline empty-map put `wrangler kv:key put
"EMAIL_TO_SK_MAP" "\x7b\x7d" --binding CLAUDE_KV [--preview]`
(lines 280–281/286–287). -/
inductive WranglerCmd where
  | secretPut (name : String)
  | kvPutPath (path : String) (preview : Bool)
  | kvPutEmpty (preview : Bool)
deriving DecidableEq, Repr

/-- One observable event of the script: a shell command handed to
`executeCommand`, or a console message. -/
inductive TailEvent where
  | cmd (c : WranglerCmd)
  | log (s : String)
deriving DecidableEq, Repr

/-- The prompt answers and environment facts steps 6–7 depend on. An
empty string models a falsy prompt answer (empty input or cancelled
prompt). -/
structure DeployInput where
  adminPassword : String
  sentryDsn : String
  setupKv : Bool
  kvInitPath : String
  kvInitPathExists : Bool
  kvInitPathParses : Bool
  kvPreviewId : Option String
deriving DecidableEq, Repr

/-- Step 6 (lines 220–232): set the ADMIN_PASSWORD secret when the
prompt answer is truthy, otherwise only warn. -/
def step6 (pw : String) : List TailEvent :=
  if pw = "" then [.log "⚠️ ADMIN_PASSWORD not set (input was empty)."]
  else [.cmd (.secretPut "ADMIN_PASSWORD"),
        .log "✅ ADMIN_PASSWORD secret set."]

/-- Step 6b (lines 234–245): set the SENTRY_DSN secret when the prompt
answer is truthy, otherwise only note it. -/
def step6b (dsn : String) : List TailEvent :=
  if dsn = "" then [.log "ℹ️ SENTRY_DSN not set."]
  else [.cmd (.secretPut "SENTRY_DSN"),
        .log "✅ SENTRY_DSN secret set."]

/-- Step 7 (lines 248–290): optional initialization of the
EMAIL_TO_SK_MAP key, from a JSON file when one is given, exists and
parses, falling back to the empty map otherwise; the preview namespace
is written only when a preview id was obtained. -/
def step7 (i : DeployInput) : List TailEvent :=
  if !i.setupKv then []
  else
    (if i.kvInitPath ≠ "" && i.kvInitPathExists then
      (if i.kvInitPathParses then
        [.log ("Initializing KV with data from: " ++ i.kvInitPath),
         .cmd (.kvPutPath i.kvInitPath false)] ++
        (if i.kvPreviewId.isSome then [.cmd (.kvPutPath i.kvInitPath true)]
         else [.log "Preview KV not updated as preview_id was not available/set for the KV namespace during creation."])
      else
        [.log ("❌ Error reading or parsing initial SK map file " ++
          i.kvInitPath ++ ". Defaulting to empty map."),
         .cmd (.kvPutEmpty false)] ++
        (if i.kvPreviewId.isSome then [.cmd (.kvPutEmpty true)] else []))
    else
      (if i.kvInitPath ≠ "" then
        [.log ("⚠️ Initial SK map file not found: " ++ i.kvInitPath ++
          ". Using empty map.")]
       else [.log "Initializing KV with an empty map."]) ++
      [.cmd (.kvPutEmpty false)] ++
      (if i.kvPreviewId.isSome then [.cmd (.kvPutEmpty true)] else [])) ++
    [.log "✅ EMAIL_TO_SK_MAP initialized in KV."]

/-- The whole scripted tail: steps 6, 6b, 7, then the completion message
(line 293). -/
def tailScript (i : DeployInput) : List TailEvent :=
  step6 i.adminPassword ++ step6b i.sentryDsn ++ step7 i ++
    [.log "🎉 Cloudflare Worker deployment and setup process complete! 🎉"]

/-- Interpreter for a scripted tail under an environment telling which
shell commands succeed: returns the events that actually happen and
whether the script ran to completion (a failing command aborts the run,
as the re-thrown error reaches the top-level catch and exits). -/
def runTail (execOk : WranglerCmd → Bool) : List TailEvent → List TailEvent × Bool
  | [] => ([], true)
  | .cmd c :: rest =>
    if execOk c then
      let r := runTail execOk rest
      (.cmd c :: r.1, r.2)
    else ([.cmd c], false)
  | .log s :: rest =>
    let r := runTail execOk rest
    (.log s :: r.1, r.2)

end DeployScript

/-! ## Helper lemmas -/

namespace PoolMgr

theorem lookupSK_eq_none_iff (p : Pool) (x : String) :
    lookupSK p x = none ↔ x ∉ p.map Prod.fst := by
  induction p with
  | nil => simp [lookupSK]
  | cons kv rest ih =>
    obtain ⟨k, v⟩ := kv
    by_cases hk : k = x
    · subst hk
      simp [lookupSK]
    · simp [lookupSK, hk, ih, Ne.symm hk]

theorem lookupSK_isSome_iff (p : Pool) (x : String) :
    (lookupSK p x).isSome = true ↔ x ∈ p.map Prod.fst := by
  rw [← Decidable.not_iff_not, ← lookupSK_eq_none_iff, Option.not_isSome_iff_eq_none]

theorem lookupSK_eraseKey (p : Pool) (e x : String) :
    lookupSK (eraseKey p e) x = if x = e then none else lookupSK p x := by
  induction p with
  | nil => simp [eraseKey, lookupSK]
  | cons kv rest ih =>
    obtain ⟨k, v⟩ := kv
    by_cases hk : k = e
    · subst hk
      by_cases hx : x = k
      · subst hx
        simp [eraseKey, List.filter_cons, lookupSK] at ih ⊢
        exact ih
      · simp [eraseKey, List.filter_cons, lookupSK, hx, Ne.symm hx] at ih ⊢
        simpa [hx] using ih
    · by_cases hkx : k = x
      · subst hkx
        simp [eraseKey, List.filter_cons, hk, lookupSK, Ne.symm hk]
      · simp [eraseKey, List.filter_cons, hk, lookupSK, hkx] at ih ⊢
        exact ih

theorem mem_iff_lookupSK (p : Pool) (e sk : String) (h : keysNodup p) :
    (e, sk) ∈ p ↔ lookupSK p e = some sk := by
  induction p with
  | nil => simp [lookupSK]
  | cons kv rest ih =>
    obtain ⟨k, v⟩ := kv
    have hnd : keysNodup rest := by
      have := h
      simp [keysNodup, List.nodup_cons] at this
      exact this.2
    have hk : k ∉ rest.map Prod.fst := by
      have := h
      simp [keysNodup, List.nodup_cons] at this
      simpa using this.1
    by_cases hke : k = e
    · subst hke
      simp only [lookupSK, if_pos rfl]
      constructor
      · intro hmem
        rcases List.mem_cons.mp hmem with heq | hrest
        · simp at heq
          simp [heq]
        · exact absurd (List.mem_map.mpr ⟨(k, sk), hrest, rfl⟩) hk
      · intro hsome
        simp at hsome
        simp [hsome]
    · simp only [lookupSK, if_neg hke]
      rw [← ih hnd]
      simp [List.mem_cons]
      intro h1 h2
      exact absurd h1.symm hke

theorem lookupSK_mem (p : Pool) (e sk : String) (h : lookupSK p e = some sk) :
    (e, sk) ∈ p := by
  induction p with
  | nil => simp [lookupSK] at h
  | cons kv rest ih =>
    obtain ⟨k, v⟩ := kv
    by_cases hke : k = e
    · subst hke
      simp [lookupSK] at h
      simp [h]
    · simp [lookupSK, hke] at h
      exact List.mem_cons_of_mem _ (ih h)

theorem keysNodup_eraseKey (p : Pool) (e : String) (h : keysNodup p) :
    keysNodup (eraseKey p e) := by
  unfold keysNodup eraseKey at *
  exact List.Nodup.sublist (List.Sublist.map Prod.fst (List.filter_sublist p)) h

end PoolMgr

namespace PoolMgr

theorem ctScan_snd (as bs : List Char) (acc : Bool) :
    (ctScan as bs acc).2 = min as.length bs.length := by
  induction as generalizing bs acc with
  | nil => simp [ctScan]
  | cons a as ih =>
    cases bs with
    | nil => simp [ctScan]
    | cons b bs =>
      simp [ctScan, ih, Nat.succ_min_succ]

theorem ctScan_false (as bs : List Char) : (ctScan as bs false).1 = false := by
  induction as generalizing bs with
  | nil => simp [ctScan]
  | cons a as ih =>
    cases bs with
    | nil => simp [ctScan]
    | cons b bs => simpa [ctScan] using ih bs

theorem ctScan_true_iff (as bs : List Char) (h : as.length = bs.length) :
    ((ctScan as bs true).1 = true ↔ as = bs) := by
  induction as generalizing bs with
  | nil =>
    cases bs with
    | nil => simp [ctScan]
    | cons b bs => simp at h
  | cons a as ih =>
    cases bs with
    | nil => simp at h
    | cons b bs =>
      simp only [List.length_cons, Nat.succ.injEq] at h
      by_cases hab : a = b
      · subst hab
        simpa [ctScan] using ih bs h
      · simp [ctScan, hab, ctScan_false]

theorem ctEq_iff (a b : String) : ctEq a b = true ↔ a = b := by
  unfold ctEq
  by_cases hlen : a.length = b.length
  · have hbeq : (a.length == b.length) = true := by simpa using hlen
    rw [hbeq]
    have hdata : a.data.length = b.data.length := hlen
    rw [ctScan_true_iff a.data b.data hdata, ← String.ext_iff]
  · have hbeq : (a.length == b.length) = false := by simpa using hlen
    rw [hbeq, ctScan_false]
    constructor
    · intro hc
      exact absurd hc (by simp)
    · intro hc
      subst hc
      exact absurd rfl hlen

theorem ctEqSteps_eq (a b : String) : ctEqSteps a b = min a.length b.length := by
  unfold ctEqSteps
  exact ctScan_snd a.data b.data _

theorem stepOp_eq_of_error (p : Pool) (op : PoolOp) (e : PoolError)
    (h : applyOp p op = .error e) : stepOp p op = p := by
  unfold stepOp
  rw [h]

theorem stepOp_eq_of_ok (p : Pool) (op : PoolOp) (q : Pool)
    (h : applyOp p op = .ok q) : stepOp p op = q := by
  unfold stepOp
  rw [h]

theorem addOp_ok_shape (p : Pool) (email sk : String) (q : Pool)
    (h : addOp p email sk = .ok q) :
    lookupSK p email = none ∧ q = (email, sk) :: p := by
  unfold addOp at h
  by_cases hs : (lookupSK p email).isSome
  · simp [hs] at h
  · by_cases hv : (email.isEmpty || sk.isEmpty) = true
    · simp [hs, hv] at h
    · simp only [hs, hv, if_false, Bool.false_eq_true, if_neg] at h
      refine ⟨by simpa [Option.not_isSome_iff_eq_none] using hs, ?_⟩
      cases h
      rfl

theorem updateOp_ok_shape (p : Pool) (email : String) (ne nsk : Option String)
    (q : Pool) (h : updateOp p email ne nsk = .ok q) :
    ∃ oldSk, lookupSK p email = some oldSk ∧
      q = (ne.getD email, nsk.getD oldSk) :: eraseKey p email ∧
      (ne.getD email = email ∨ lookupSK p (ne.getD email) = none) := by
  unfold updateOp at h
  cases hlk : lookupSK p email with
  | none =>
    rw [hlk] at h
    exact absurd h (by simp)
  | some oldSk =>
    rw [hlk] at h
    by_cases hni : (ne.isNone && nsk.isNone) = true
    · simp [hni] at h
    · simp only [Bool.not_eq_true] at hni
      rw [hni] at h
      by_cases hcol : (ne.getD email ≠ email ∧ (lookupSK p (ne.getD email)).isSome = true)
      · simp [hcol] at h
      · simp only [if_neg hcol, Bool.false_eq_true, if_false] at h
        refine ⟨oldSk, rfl, ?_, ?_⟩
        · cases h
          rfl
        · by_cases heq : ne.getD email = email
          · exact .inl heq
          · right
            have hns : ¬(lookupSK p (ne.getD email)).isSome = true :=
              fun hs => hcol ⟨heq, hs⟩
            simpa [Option.not_isSome_iff_eq_none] using hns

theorem deleteOp_ok_shape (p : Pool) (email : String) (q : Pool)
    (h : deleteOp p email = .ok q) :
    (lookupSK p email).isSome = true ∧ q = eraseKey p email := by
  unfold deleteOp at h
  by_cases hs : (lookupSK p email).isSome
  · refine ⟨hs, ?_⟩
    rw [if_pos hs] at h
    cases h
    rfl
  · simp [hs] at h

theorem keysNodup_stepOp (p : Pool) (op : PoolOp) (h : keysNodup p) :
    keysNodup (stepOp p op) := by
  cases happ : applyOp p op with
  | error e =>
    rw [stepOp_eq_of_error p op e happ]
    exact h
  | ok q =>
    rw [stepOp_eq_of_ok p op q happ]
    cases op with
    | add email sk =>
      obtain ⟨hnone, hq⟩ := addOp_ok_shape p email sk q happ
      subst hq
      have hmem : email ∉ p.map Prod.fst := (lookupSK_eq_none_iff p email).mp hnone
      simp only [keysNodup, List.map_cons, List.nodup_cons]
      exact ⟨hmem, h⟩
    | update email ne nsk =>
      obtain ⟨oldSk, hlk, hq, hside⟩ := updateOp_ok_shape p email ne nsk q happ
      subst hq
      have hers : keysNodup (eraseKey p email) := keysNodup_eraseKey p email h
      have hnm : (ne.getD email) ∉ (eraseKey p email).map Prod.fst := by
        apply (lookupSK_eq_none_iff _ _).mp
        rw [lookupSK_eraseKey]
        cases hside with
        | inl heq => simp [heq]
        | inr hnone =>
          by_cases heq : ne.getD email = email
          · simp [heq]
          · simp [heq, hnone]
      simp only [keysNodup, List.map_cons, List.nodup_cons]
      exact ⟨hnm, hers⟩
    | delete email =>
      obtain ⟨hs, hq⟩ := deleteOp_ok_shape p email q happ
      subst hq
      exact keysNodup_eraseKey p email h


theorem keysNodup_foldl (ops : List PoolOp) (p : Pool) (h : keysNodup p) :
    keysNodup (ops.foldl stepOp p) := by
  induction ops generalizing p with
  | nil => simpa using h
  | cons op ops ih => exact ih _ (keysNodup_stepOp p op h)

theorem keysNodup_replay (ops : List PoolOp) : keysNodup (replay ops) :=
  keysNodup_foldl ops [] (by simp [keysNodup])

end PoolMgr

namespace PoolMgr

theorem refStepOp_eq_of_error (m : RefMap) (op : PoolOp) (e : PoolError)
    (h : refApplyOp m op = .error e) : refStepOp m op = m := by
  unfold refStepOp
  rw [h]

theorem refStepOp_eq_of_ok (m : RefMap) (op : PoolOp) (m2 : RefMap)
    (h : refApplyOp m op = .ok m2) : refStepOp m op = m2 := by
  unfold refStepOp
  rw [h]

theorem sim_add (p : Pool) (m : RefMap) (email sk : String) (h : Sim p m) :
    errOf (applyOp p (.add email sk)) = errOf (refApplyOp m (.add email sk)) ∧
      Sim (stepOp p (.add email sk)) (refStepOp m (.add email sk)) := by
  have he := h email
  by_cases hs : (m email).isSome = true
  · have hs2 : (lookupSK p email).isSome = true := by rw [he]; exact hs
    have happ : applyOp p (.add email sk) = .error .DuplicateEmail := by
      simp [applyOp, addOp, hs2]
    have href : refApplyOp m (.add email sk) = .error .DuplicateEmail := by
      simp [refApplyOp, refAdd, hs]
    refine ⟨by rw [happ, href]; rfl, ?_⟩
    rw [stepOp_eq_of_error _ _ _ happ, refStepOp_eq_of_error _ _ _ href]
    exact h
  · have hmn : m email = none := by
      simpa [Option.not_isSome_iff_eq_none] using hs
    have hpn : lookupSK p email = none := by rw [he]; exact hmn
    by_cases hv : (email.isEmpty || sk.isEmpty) = true
    · have happ : applyOp p (.add email sk) = .error .InvalidInput := by
        simp [applyOp, addOp, hpn, hv]
      have href : refApplyOp m (.add email sk) = .error .InvalidInput := by
        simp [refApplyOp, refAdd, hmn, hv]
      refine ⟨by rw [happ, href]; rfl, ?_⟩
      rw [stepOp_eq_of_error _ _ _ happ, refStepOp_eq_of_error _ _ _ href]
      exact h
    · have happ : applyOp p (.add email sk) = .ok ((email, sk) :: p) := by
        simp [applyOp, addOp, hpn, hv]
      have href : refApplyOp m (.add email sk) =
          .ok (fun x => if x = email then some sk else m x) := by
        simp [refApplyOp, refAdd, hmn, hv]
      refine ⟨by rw [happ, href]; rfl, ?_⟩
      rw [stepOp_eq_of_ok _ _ _ happ, refStepOp_eq_of_ok _ _ _ href]
      intro x
      by_cases hxe : x = email
      · subst hxe
        simp [lookupSK]
      · simp [lookupSK, Ne.symm hxe, hxe, h x]

theorem sim_update (p : Pool) (m : RefMap) (email : String)
    (ne nsk : Option String) (h : Sim p m) :
    errOf (applyOp p (.update email ne nsk)) =
        errOf (refApplyOp m (.update email ne nsk)) ∧
      Sim (stepOp p (.update email ne nsk)) (refStepOp m (.update email ne nsk)) := by
  have he := h email
  cases hmk : m email with
  | none =>
    have hpk : lookupSK p email = none := by rw [he]; exact hmk
    have happ : applyOp p (.update email ne nsk) = .error .NotFound := by
      simp [applyOp, updateOp, hpk]
    have href : refApplyOp m (.update email ne nsk) = .error .NotFound := by
      simp [refApplyOp, refUpdate, hmk]
    refine ⟨by rw [happ, href]; rfl, ?_⟩
    rw [stepOp_eq_of_error _ _ _ happ, refStepOp_eq_of_error _ _ _ href]
    exact h
  | some oldSk =>
    have hpk : lookupSK p email = some oldSk := by rw [he]; exact hmk
    by_cases hni : (ne.isNone && nsk.isNone) = true
    · have happ : applyOp p (.update email ne nsk) = .error .InvalidInput := by
        simp [applyOp, updateOp, hpk, hni]
      have href : refApplyOp m (.update email ne nsk) = .error .InvalidInput := by
        simp [refApplyOp, refUpdate, hmk, hni]
      refine ⟨by rw [happ, href]; rfl, ?_⟩
      rw [stepOp_eq_of_error _ _ _ happ, refStepOp_eq_of_error _ _ _ href]
      exact h
    · have hne := h (ne.getD email)
      by_cases hcol : (ne.getD email ≠ email ∧ (m (ne.getD email)).isSome = true)
      · have hcol2 : (ne.getD email ≠ email ∧ (lookupSK p (ne.getD email)).isSome = true) := by
          rw [hne]
          exact hcol
        have happ : applyOp p (.update email ne nsk) = .error .InvalidInput := by
          simp only [applyOp, updateOp, hpk]
          rw [if_neg (by simpa using hni), if_pos hcol2]
        have href : refApplyOp m (.update email ne nsk) = .error .InvalidInput := by
          simp only [refApplyOp, refUpdate, hmk]
          rw [if_neg (by simpa using hni), if_pos hcol]
        refine ⟨by rw [happ, href]; rfl, ?_⟩
        rw [stepOp_eq_of_error _ _ _ happ, refStepOp_eq_of_error _ _ _ href]
        exact h
      · have hcol2 : ¬(ne.getD email ≠ email ∧ (lookupSK p (ne.getD email)).isSome = true) := by
          rw [hne]
          exact hcol
        have happ : applyOp p (.update email ne nsk) =
            .ok ((ne.getD email, nsk.getD oldSk) :: eraseKey p email) := by
          simp only [applyOp, updateOp, hpk]
          rw [if_neg (by simpa using hni), if_neg hcol2]
        have href : refApplyOp m (.update email ne nsk) =
            .ok (fun x => if x = ne.getD email then some (nsk.getD oldSk)
              else if x = email then none else m x) := by
          simp only [refApplyOp, refUpdate, hmk]
          rw [if_neg (by simpa using hni), if_neg hcol]
        refine ⟨by rw [happ, href]; rfl, ?_⟩
        rw [stepOp_eq_of_ok _ _ _ happ, refStepOp_eq_of_ok _ _ _ href]
        intro x
        by_cases hxn : x = ne.getD email
        · subst hxn
          simp [lookupSK]
        · have hne2 : ¬(ne.getD email = x) := fun hc => hxn (Eq.symm hc)
          simp only [lookupSK, if_neg hne2, if_neg hxn]
          rw [lookupSK_eraseKey]
          by_cases hxe : x = email
          · simp [hxe]
          · simp [hxe, h x]

theorem sim_delete (p : Pool) (m : RefMap) (email : String) (h : Sim p m) :
    errOf (applyOp p (.delete email)) = errOf (refApplyOp m (.delete email)) ∧
      Sim (stepOp p (.delete email)) (refStepOp m (.delete email)) := by
  have he := h email
  by_cases hs : (m email).isSome = true
  · have hs2 : (lookupSK p email).isSome = true := by rw [he]; exact hs
    have happ : applyOp p (.delete email) = .ok (eraseKey p email) := by
      simp [applyOp, deleteOp, hs2]
    have href : refApplyOp m (.delete email) =
        .ok (fun x => if x = email then none else m x) := by
      simp [refApplyOp, refDelete, hs]
    refine ⟨by rw [happ, href]; rfl, ?_⟩
    rw [stepOp_eq_of_ok _ _ _ happ, refStepOp_eq_of_ok _ _ _ href]
    intro x
    rw [lookupSK_eraseKey]
    by_cases hxe : x = email
    · simp [hxe]
    · simp [hxe, h x]
  · have hs2 : ¬(lookupSK p email).isSome = true := by rw [he]; exact hs
    have happ : applyOp p (.delete email) = .error .NotFound := by
      simp [applyOp, deleteOp, hs2]
    have href : refApplyOp m (.delete email) = .error .NotFound := by
      simp [refApplyOp, refDelete, hs]
    refine ⟨by rw [happ, href]; rfl, ?_⟩
    rw [stepOp_eq_of_error _ _ _ happ, refStepOp_eq_of_error _ _ _ href]
    exact h

theorem sim_stepOp (p : Pool) (m : RefMap) (op : PoolOp) (h : Sim p m) :
    errOf (applyOp p op) = errOf (refApplyOp m op) ∧
      Sim (stepOp p op) (refStepOp m op) := by
  cases op with
  | add email sk => exact sim_add p m email sk h
  | update email ne nsk => exact sim_update p m email ne nsk h
  | delete email => exact sim_delete p m email h

theorem sim_foldl (ops : List PoolOp) (p : Pool) (m : RefMap) (h : Sim p m) :
    Sim (ops.foldl stepOp p) (ops.foldl refStepOp m) := by
  induction ops generalizing p m with
  | nil => exact h
  | cons op ops ih => exact ih _ _ (sim_stepOp p m op h).2

theorem sim_replay (ops : List PoolOp) : Sim (replay ops) (refReplay ops) :=
  sim_foldl ops [] (fun _ => none) (fun _ => rfl)

end PoolMgr

namespace PoolMgr

theorem strLe_trans (a b c : String) (hab : strLe a b = true)
    (hbc : strLe b c = true) : strLe a c = true := by
  simp only [strLe, decide_eq_true_eq] at hab hbc ⊢
  exact le_trans hab hbc

theorem strLe_total (a b : String) : (strLe a b || strLe b a) = true := by
  simp only [strLe, Bool.or_eq_true, decide_eq_true_eq]
  exact le_total a b

theorem listEmails_sorted (p : Pool) : (listEmails p).Sorted (· ≤ ·) := by
  unfold listEmails
  have hp := @List.sorted_mergeSort String strLe
    (fun a b c => strLe_trans a b c) (fun a b => strLe_total a b)
    ((p.filter (fun kv => !kv.2.isEmpty)).map Prod.fst)
  exact hp.imp (fun hab => by simpa [strLe, decide_eq_true_eq] using hab)

theorem listEmails_nodup (p : Pool) (h : keysNodup p) : (listEmails p).Nodup := by
  unfold listEmails
  have hl : ((p.filter (fun kv => !kv.2.isEmpty)).map Prod.fst).Nodup :=
    List.Nodup.sublist (List.Sublist.map Prod.fst (List.filter_sublist p)) h
  exact ((List.mergeSort_perm _ strLe).symm).nodup hl

theorem mem_listEmails (p : Pool) (h : keysNodup p) (e : String) :
    e ∈ listEmails p ↔ ∃ sk, lookupSK p e = some sk ∧ ¬sk = "" := by
  unfold listEmails
  rw [List.mem_mergeSort, List.mem_map]
  constructor
  · rintro ⟨kv, hkv, hfst⟩
    obtain ⟨k, v⟩ := kv
    rw [List.mem_filter] at hkv
    subst hfst
    refine ⟨v, (mem_iff_lookupSK p k v h).mp hkv.1, ?_⟩
    intro hv
    have h2 := hkv.2
    rw [hv] at h2
    simp at h2
    exact absurd h2 (by decide)
  · rintro ⟨sk, hlk, hsk⟩
    refine ⟨(e, sk), ?_, rfl⟩
    rw [List.mem_filter]
    refine ⟨lookupSK_mem p e sk hlk, ?_⟩
    have hf : sk.isEmpty = false := by
      cases hh : sk.isEmpty with
      | false => rfl
      | true => exact absurd ((String.isEmpty_iff sk).mp hh) hsk
    simp [hf]

theorem commitSave_cases (kv : StoreVal) (so : Bool) (r : Except PoolError Pool) :
    (commitSave kv so r).1 = kv ∨ (commitSave kv so r).2 = .ok .done := by
  cases r with
  | error e => exact .inl rfl
  | ok p2 =>
    cases so with
    | false => exact .inl rfl
    | true => exact .inr rfl

theorem runLogin_fst (kv : StoreVal) (lo : Bool) (mode : LoginMode)
    (email uniqueName : Option String) (r : Nat)
    (issuer : String → Option String → Except PoolError String) :
    (runLogin kv lo mode email uniqueName r issuer).1 = kv := by
  unfold runLogin
  repeat' split
  all_goals rfl

theorem runAdmin_cases (secret supplied : String) (kv : StoreVal)
    (lo so : Bool) (req : AdminReq) :
    (runAdmin secret supplied kv lo so req).1 = kv ∨
      (runAdmin secret supplied kv lo so req).2 = .ok .done := by
  unfold runAdmin
  split
  · exact .inl rfl
  · split
    · exact .inl rfl
    · split
      · exact .inl rfl
      · exact commitSave_cases kv so _
      · exact commitSave_cases kv so _
      · exact commitSave_cases kv so _

theorem runAdmin_unauthorized (secret supplied : String) (kv : StoreVal)
    (lo so : Bool) (req : AdminReq) (h : ¬supplied = secret) :
    runAdmin secret supplied kv lo so req = (kv, .error .Unauthorized) := by
  have hct : ctEq supplied secret = false :=
    Bool.eq_false_iff.mpr (fun hc => h ((ctEq_iff supplied secret).mp hc))
  unfold runAdmin authenticate
  rw [hct]
  rfl

end PoolMgr

namespace DeployScript

theorem runTail_all_ok (execOk : WranglerCmd → Bool) (evs : List TailEvent)
    (h : ∀ c, TailEvent.cmd c ∈ evs → execOk c = true) :
    runTail execOk evs = (evs, true) := by
  induction evs with
  | nil => rfl
  | cons ev rest ih =>
    cases ev with
    | cmd c =>
      have hc : execOk c = true := h c (List.mem_cons_self _ _)
      simp [runTail, hc, ih (fun d hd => h d (List.mem_cons_of_mem _ hd))]
    | log s =>
      simp [runTail, ih (fun d hd => h d (List.mem_cons_of_mem _ hd))]

theorem secretPut_not_mem_step7 (i : DeployInput) (n : String) :
    TailEvent.cmd (.secretPut n) ∉ step7 i := by
  unfold step7
  split
  · simp
  · split
    · split
      · split <;> simp
      · split <;> simp
    · split <;> split <;> simp

end DeployScript

/-! ## Claim theorems -/

namespace PoolMgr

theorem updateOp_success (p : Pool) (email : String) (ne nsk : Option String)
    (oldSk : String) (hlk : lookupSK p email = some oldSk)
    (hsupp : ¬(ne = none ∧ nsk = none))
    (hside : ne.getD email = email ∨ lookupSK p (ne.getD email) = none) :
    updateOp p email ne nsk =
        .ok ((ne.getD email, nsk.getD oldSk) :: eraseKey p email) ∧
      ∀ x, lookupSK ((ne.getD email, nsk.getD oldSk) :: eraseKey p email) x =
        if x = ne.getD email then some (nsk.getD oldSk)
        else if x = email then none else lookupSK p x := by
  have hni : ¬((ne.isNone && nsk.isNone) = true) := by
    intro hc
    simp only [Bool.and_eq_true, Option.isNone_iff_eq_none] at hc
    exact hsupp hc
  have hcol : ¬(ne.getD email ≠ email ∧ (lookupSK p (ne.getD email)).isSome = true) := by
    rintro ⟨hne, hsome⟩
    cases hside with
    | inl heq => exact hne heq
    | inr hnone => rw [hnone] at hsome; simp at hsome
  constructor
  · simp only [updateOp, hlk]
    rw [if_neg hni, if_neg hcol]
  · intro x
    by_cases hxn : x = ne.getD email
    · subst hxn
      simp [lookupSK]
    · have hne2 : ¬(ne.getD email = x) := fun hc => hxn (Eq.symm hc)
      simp only [lookupSK, if_neg hne2, if_neg hxn]
      rw [lookupSK_eraseKey]

/-- Claim C1: for every finite sequence of add/update/delete operations
applied one at a time (no concurrency) starting from the empty Pool, the
email-to-SK mapping produced by the Repository equals, at every email,
the mapping produced by replaying the same sequence on a reference
finite map with the same per-operation success/failure rules; moreover
at every replayed state the next operation has the same success/failure
outcome on both sides. -/
theorem C1_repository_refines_reference_map (ops : List PoolOp) :
    (∀ e, lookupSK (replay ops) e = refReplay ops e) ∧
      ∀ op, errOf (applyOp (replay ops) op) = errOf (refApplyOp (refReplay ops) op) :=
  ⟨sim_replay ops, fun op => (sim_stepOp _ _ op (sim_replay ops)).1⟩

/-- Claim C6: after every sequence of prior mutations, `listEmails`
returns a sequence that is lexicographically sorted ascending, has no
duplicates, and contains exactly the emails bound to a non-empty SK in
the current Pool. -/
theorem C6_listEmails_sorted_nodup_complete (ops : List PoolOp) :
    (listEmails (replay ops)).Sorted (· ≤ ·) ∧
      (listEmails (replay ops)).Nodup ∧
      ∀ e, e ∈ listEmails (replay ops) ↔
        ∃ sk, lookupSK (replay ops) e = some sk ∧ ¬sk = "" :=
  ⟨listEmails_sorted _, listEmails_nodup _ (keysNodup_replay ops),
   fun e => mem_listEmails _ (keysNodup_replay ops) e⟩

/-- Claim C7: the store adapter's `load()` returns the empty Pool — a
success, not an error — whenever the underlying key is absent, and an
error happens exactly on transport failure and is always
`StoreUnavailable`; hence the Pool is created implicitly on first
read. -/
theorem C7_load_absent_key_is_empty_pool :
    loadStore none true = .ok ([] : Pool) ∧
      ∀ kv t e, loadStore kv t = .error e ↔ (t = false ∧ e = .StoreUnavailable) := by
  refine ⟨rfl, ?_⟩
  intro kv t e
  cases t with
  | true =>
    simp [loadStore]
  | false =>
    simp [loadStore, eq_comm]

/-- Claim C9: the admin authenticator's comparison is constant-time: the
number of character comparisons `ctEq` performs is `min` of the two
lengths, so it depends only on the lengths and never on the position of
the first mismatching character (no byte-by-byte early exit), and the
check still decides equality of the supplied password against the
configured secret. -/
theorem C9_authenticate_constant_time :
    (∀ a b : String, ctEqSteps a b = min a.length b.length) ∧
      (∀ a b : String, ctEq a b = true ↔ a = b) ∧
      ∀ secret supplied : String,
        authenticate secret supplied = true ↔ supplied = secret :=
  ⟨ctEqSteps_eq, ctEq_iff, fun s u => ctEq_iff u s⟩

/-- Claim C4: `add(email, sk)`, with the failure conditions checked in
the spec's order: it fails with `DuplicateEmail` whenever email is
already present — leaving the pool, hence the existing SK binding,
intact — otherwise fails with `InvalidInput` whenever email or sk is
empty, and otherwise inserts the pair and persists the grown pool. -/
theorem C4_add_rules (p : Pool) (email sk : String) :
    ((lookupSK p email).isSome = true →
        addOp p email sk = .error .DuplicateEmail ∧ stepOp p (.add email sk) = p) ∧
      (lookupSK p email = none → (email.isEmpty || sk.isEmpty) = true →
        addOp p email sk = .error .InvalidInput) ∧
      (lookupSK p email = none → (email.isEmpty || sk.isEmpty) = false →
        addOp p email sk = .ok ((email, sk) :: p) ∧
          stepOp p (.add email sk) = (email, sk) :: p ∧
          lookupSK ((email, sk) :: p) email = some sk) := by
  refine ⟨?_, ?_, ?_⟩
  · intro hs
    have happ : addOp p email sk = .error .DuplicateEmail := by
      simp [addOp, hs]
    exact ⟨happ, stepOp_eq_of_error p _ _ (by simpa [applyOp] using happ)⟩
  · intro hn hv
    simp [addOp, hn, hv]
  · intro hn hv
    have happ : addOp p email sk = .ok ((email, sk) :: p) := by
      simp [addOp, hn, hv]
    exact ⟨happ, stepOp_eq_of_ok p _ _ (by simpa [applyOp] using happ),
      by simp [lookupSK]⟩

/-- Witness for C4: a duplicate add fails and preserves the sk1 binding;
an empty email is rejected; a fresh add inserts. -/
theorem C4_add_rules_witness :
    (addOp [("a@x.com", "sk1")] "a@x.com" "sk2" = .error .DuplicateEmail ∧
        stepOp [("a@x.com", "sk1")] (.add "a@x.com" "sk2") = [("a@x.com", "sk1")]) ∧
      addOp [] "" "sk9" = .error .InvalidInput ∧
      (addOp [] "a@x.com" "sk1" = .ok [("a@x.com", "sk1")] ∧
        stepOp [] (.add "a@x.com" "sk1") = [("a@x.com", "sk1")] ∧
        lookupSK [("a@x.com", "sk1")] "a@x.com" = some "sk1") :=
  ⟨(C4_add_rules [("a@x.com", "sk1")] "a@x.com" "sk2").1 (by decide),
   (C4_add_rules [] "" "sk9").2.1 (by decide) (by decide),
   (C4_add_rules [] "a@x.com" "sk1").2.2 (by decide) (by decide)⟩

/-- Claim C5: `update(email, newEmail?, newSk?)`, with the failure
conditions checked in the spec's order: `NotFound` whenever email is
absent; `InvalidInput` whenever neither newEmail nor newSk is supplied,
or whenever newEmail is already used by a different existing entry; and
otherwise the rename and/or SK replacement is applied in a single step
whose persisted result binds the (possibly new) email to the (possibly
new) SK, drops the old email, and touches nothing else — so no
intermediate state is ever persisted. -/
theorem C5_update_rules (p : Pool) (email : String) (ne nsk : Option String) :
    (lookupSK p email = none → updateOp p email ne nsk = .error .NotFound) ∧
      (lookupSK p email ≠ none → ne = none → nsk = none →
        updateOp p email ne nsk = .error .InvalidInput) ∧
      (∀ ne2, lookupSK p email ≠ none → ne = some ne2 → ¬ne2 = email →
        (lookupSK p ne2).isSome = true →
        updateOp p email ne nsk = .error .InvalidInput) ∧
      (∀ oldSk, lookupSK p email = some oldSk →
        ¬(ne = none ∧ nsk = none) →
        (ne.getD email = email ∨ lookupSK p (ne.getD email) = none) →
        updateOp p email ne nsk =
            .ok ((ne.getD email, nsk.getD oldSk) :: eraseKey p email) ∧
          ∀ x, lookupSK ((ne.getD email, nsk.getD oldSk) :: eraseKey p email) x =
            if x = ne.getD email then some (nsk.getD oldSk)
            else if x = email then none else lookupSK p x) := by
  refine ⟨?_, ?_, ?_, ?_⟩
  · intro hn
    simp [updateOp, hn]
  · intro hs hne hnsk
    subst hne
    subst hnsk
    cases hlk : lookupSK p email with
    | none => exact absurd hlk hs
    | some oldSk => simp [updateOp, hlk]
  · intro ne2 hs hne hneq hcol
    subst hne
    cases hlk : lookupSK p email with
    | none => exact absurd hlk hs
    | some oldSk =>
      simp only [updateOp, hlk]
      rw [if_neg (by simp)]
      rw [if_pos ⟨by simpa using hneq, by simpa using hcol⟩]
  · intro oldSk hlk hsupp hside
    exact updateOp_success p email ne nsk oldSk hlk hsupp hside

/-- Witness for C5: absent email, missing fields, rename collision with
a different entry, and a combined rename-and-replace success. -/
theorem C5_update_rules_witness :
    updateOp [] "a@x.com" none (some "sk2") = .error .NotFound ∧
      updateOp [("a@x.com", "sk1")] "a@x.com" none none = .error .InvalidInput ∧
      updateOp [("a@x.com", "sk1"), ("b@x.com", "sk2")] "a@x.com"
          (some "b@x.com") none = .error .InvalidInput ∧
      updateOp [("a@x.com", "sk1")] "a@x.com" (some "c@x.com") (some "sk3") =
        .ok [("c@x.com", "sk3")] :=
  ⟨(C5_update_rules [] "a@x.com" none (some "sk2")).1 (by decide),
   (C5_update_rules [("a@x.com", "sk1")] "a@x.com" none none).2.1
     (by decide) rfl rfl,
   (C5_update_rules [("a@x.com", "sk1"), ("b@x.com", "sk2")] "a@x.com"
       (some "b@x.com") none).2.2.1 "b@x.com" (by decide) rfl (by decide) (by decide),
   ((C5_update_rules [("a@x.com", "sk1")] "a@x.com" (some "c@x.com")
       (some "sk3")).2.2.2 "sk1" (by decide) (by simp) (.inr (by decide))).1⟩

/-- Claim C8: renaming an entry to its own current email succeeds as a
no-op rather than failing with `DuplicateEmail`: the persisted Pool is,
as a mapping, equal to the Pool before the call up to any simultaneously
supplied newSk, and exactly equal when no newSk is supplied. -/
theorem C8_update_self_rename_noop (p : Pool) (email sk : String)
    (nsk : Option String) (h : lookupSK p email = some sk) :
    updateOp p email (some email) nsk =
        .ok ((email, nsk.getD sk) :: eraseKey p email) ∧
      (∀ x, lookupSK ((email, nsk.getD sk) :: eraseKey p email) x =
        if x = email then some (nsk.getD sk) else lookupSK p x) ∧
      (nsk = none →
        ∀ x, lookupSK ((email, nsk.getD sk) :: eraseKey p email) x = lookupSK p x) := by
  have hres := updateOp_success p email (some email) nsk sk h
    (by rintro ⟨hc, _⟩; exact Option.noConfusion hc) (.inl (by simp))
  have hchar : ∀ x, lookupSK ((email, nsk.getD sk) :: eraseKey p email) x =
      if x = email then some (nsk.getD sk) else lookupSK p x := by
    intro x
    have hx := hres.2 x
    simp only [Option.getD_some] at hx
    by_cases hxe : x = email
    · rw [hx, if_pos hxe, if_pos hxe]
    · rw [hx, if_neg hxe, if_neg hxe, if_neg hxe]
  refine ⟨by simpa using hres.1, hchar, ?_⟩
  intro hn x
  rw [hchar x]
  by_cases hxe : x = email
  · subst hxe
    rw [if_pos rfl, hn]
    simp [h]
  · rw [if_neg hxe]

/-- Witness for C8: renaming "a@x.com" to itself with no new SK succeeds
and persists the very same pool. -/
theorem C8_update_self_rename_noop_witness :
    updateOp [("a@x.com", "sk1"), ("b@x.com", "sk2")] "a@x.com"
        (some "a@x.com") none = .ok [("a@x.com", "sk1"), ("b@x.com", "sk2")] :=
  (C8_update_self_rename_noop [("a@x.com", "sk1"), ("b@x.com", "sk2")]
    "a@x.com" "sk1" none (by decide)).1

end PoolMgr

namespace PoolMgr

/-- Claim C2: random-mode selection fails with PoolEmpty exactly when the
loaded snapshot's mapping has zero entries; for a snapshot of N entries
(under the §3 key-uniqueness invariant), each entry is selected by
exactly one of the N equally likely values of the injected uniform
random source — probability exactly 1/N with no weighting and no
exclusion — and the draw is a pure function of snapshot and source, so
there is no affinity across requests. -/
theorem C2_random_selection_uniform (p : Pool) (h : keysNodup p) :
    (∀ r, selectRandom p r = .error .PoolEmpty ↔ p.length = 0) ∧
      ∀ i : Fin p.length,
        ((Finset.range p.length).filter
          (fun r => selectRandom p r = .ok (p.get i))).card = 1 := by
  constructor
  · intro r
    constructor
    · intro hsel
      by_contra hne
      unfold selectRandom at hsel
      rw [dif_neg hne] at hsel
      exact Except.noConfusion hsel
    · intro hz
      unfold selectRandom
      rw [dif_pos hz]
  · intro i
    have hn : p.length ≠ 0 := by
      have := i.isLt
      omega
    have hinj : Function.Injective p.get :=
      List.nodup_iff_injective_get.mp (List.Nodup.of_map Prod.fst h)
    have hiff : ∀ r ∈ Finset.range p.length,
        (selectRandom p r = .ok (p.get i) ↔ r = i.val) := by
      intro r hr
      rw [Finset.mem_range] at hr
      unfold selectRandom
      rw [dif_neg hn]
      constructor
      · intro hok
        have hget := Except.ok.inj hok
        have hfin := hinj hget
        have hval := congrArg Fin.val hfin
        simpa [Nat.mod_eq_of_lt hr] using hval
      · intro hri
        subst hri
        exact congrArg (fun j => Except.ok (p.get j))
          (Fin.ext (by simp [Nat.mod_eq_of_lt i.isLt]))
    rw [Finset.filter_congr hiff, Finset.filter_eq' (Finset.range p.length) i.val,
      if_pos (Finset.mem_range.mpr i.isLt)]
    exact Finset.card_singleton _

/-- Witness for C2 at the two-entry pool, first entry: exactly one of the
two equally likely draws selects it. -/
theorem C2_random_selection_uniform_witness :
    keysNodup [("a@x.com", "sk1"), ("b@x.com", "sk2")] ∧
      ((Finset.range (([("a@x.com", "sk1"), ("b@x.com", "sk2")] : Pool).length)).filter
        (fun r => selectRandom [("a@x.com", "sk1"), ("b@x.com", "sk2")] r =
          .ok (([("a@x.com", "sk1"), ("b@x.com", "sk2")] : Pool).get ⟨0, by decide⟩))).card
        = 1 :=
  ⟨by decide,
   (C2_random_selection_uniform [("a@x.com", "sk1"), ("b@x.com", "sk2")]
     (by decide)).2 ⟨0, by decide⟩⟩

/-- Claim C3: every operation that returns an error of any kind leaves
the persisted Pool unchanged: an erroring admin operation (add, update,
delete, list) returns the store it was given, a login — which never
saves — always does, and any admin operation invoked with a wrong
password fails with Unauthorized and changes nothing. -/
theorem C3_failed_operations_leave_store_unchanged (secret supplied : String)
    (kv : StoreVal) (lo so : Bool) (req : AdminReq) (mode : LoginMode)
    (email uniqueName : Option String) (r : Nat)
    (issuer : String → Option String → Except PoolError String) :
    (∀ e, (runAdmin secret supplied kv lo so req).2 = .error e →
        (runAdmin secret supplied kv lo so req).1 = kv) ∧
      (runLogin kv lo mode email uniqueName r issuer).1 = kv ∧
      (¬supplied = secret →
        runAdmin secret supplied kv lo so req = (kv, .error .Unauthorized)) := by
  refine ⟨?_, runLogin_fst kv lo mode email uniqueName r issuer, ?_⟩
  · intro e he
    rcases runAdmin_cases secret supplied kv lo so req with h1 | h2
    · exact h1
    · rw [he] at h2
      exact Except.noConfusion h2
  · intro hne
    exact runAdmin_unauthorized secret supplied kv lo so req hne

/-- Witness for C3: a wrong password is rejected with Unauthorized and
leaves the store as it was; a duplicate add under the right password
errors and also leaves the store as it was. -/
theorem C3_failed_operations_leave_store_unchanged_witness :
    runAdmin "hunter2" "wrong" (some [("a@x.com", "sk1")]) true true
        (.add "b@x.com" "sk2") = (some [("a@x.com", "sk1")], .error .Unauthorized) ∧
      (runAdmin "hunter2" "hunter2" (some [("a@x.com", "sk1")]) true true
        (.add "a@x.com" "sk2")).1 = some [("a@x.com", "sk1")] :=
  ⟨(C3_failed_operations_leave_store_unchanged "hunter2" "wrong"
      (some [("a@x.com", "sk1")]) true true (.add "b@x.com" "sk2") .random none none 0
      (fun _ _ => .error .IssuerUnavailable)).2.2 (by decide),
   (C3_failed_operations_leave_store_unchanged "hunter2" "hunter2"
      (some [("a@x.com", "sk1")]) true true (.add "a@x.com" "sk2") .random none none 0
      (fun _ _ => .error .IssuerUnavailable)).1 .DuplicateEmail (by decide)⟩

end PoolMgr

namespace DeployScript

/-- Claim C10: when the operator submits an empty string at the
ADMIN_PASSWORD prompt, the deployment script never issues the
`wrangler secret put ADMIN_PASSWORD` command, prints the warning
instead, and — provided the commands the run does issue succeed — the
run executes every scripted event and completes, reaching the final
completion message; so a worker can be deployed with no admin-password
secret configured. -/
theorem C10_empty_admin_password_skips_secret (i : DeployInput)
    (execOk : WranglerCmd → Bool) (hpw : i.adminPassword = "")
    (hok : ∀ c, TailEvent.cmd c ∈ tailScript i → execOk c = true) :
    runTail execOk (tailScript i) = (tailScript i, true) ∧
      TailEvent.cmd (.secretPut "ADMIN_PASSWORD") ∉ tailScript i ∧
      TailEvent.log "⚠️ ADMIN_PASSWORD not set (input was empty)." ∈ tailScript i ∧
      TailEvent.log "🎉 Cloudflare Worker deployment and setup process complete! 🎉"
        ∈ tailScript i := by
  have h6 : TailEvent.cmd (.secretPut "ADMIN_PASSWORD") ∉ step6 i.adminPassword := by
    rw [hpw]
    simp [step6]
  have h6b : TailEvent.cmd (.secretPut "ADMIN_PASSWORD") ∉ step6b i.sentryDsn := by
    unfold step6b
    split
    · simp
    · simp
  have h7 := secretPut_not_mem_step7 i "ADMIN_PASSWORD"
  refine ⟨runTail_all_ok execOk _ hok, ?_, ?_, ?_⟩
  · unfold tailScript
    intro hmem
    simp only [List.mem_append] at hmem
    rcases hmem with ((hc | hc) | hc) | hc
    · exact h6 hc
    · exact h6b hc
    · exact h7 hc
    · simp at hc
  · unfold tailScript
    rw [hpw]
    simp [step6]
  · simp [tailScript]

/-- Witness for C10: all prompt answers empty, KV setup declined, every
command succeeding. -/
theorem C10_empty_admin_password_skips_secret_witness :
    runTail (fun _ => true)
        (tailScript ⟨"", "", false, "", false, false, none⟩) =
        (tailScript ⟨"", "", false, "", false, false, none⟩, true) ∧
      TailEvent.cmd (.secretPut "ADMIN_PASSWORD") ∉
        tailScript ⟨"", "", false, "", false, false, none⟩ ∧
      TailEvent.log "⚠️ ADMIN_PASSWORD not set (input was empty)." ∈
        tailScript ⟨"", "", false, "", false, false, none⟩ ∧
      TailEvent.log "🎉 Cloudflare Worker deployment and setup process complete! 🎉"
        ∈ tailScript ⟨"", "", false, "", false, false, none⟩ :=
  C10_empty_admin_password_skips_secret ⟨"", "", false, "", false, false, none⟩
    (fun _ => true) rfl (fun _ _ => rfl)

end DeployScript
